import Mathlib

/-! Verification development for the `brownian-motion` repository.

The C++ sources are shallowly embedded: `float` values are modelled as exact
rationals (`ℚ`), `std::vector<std::vector<float>>` as `List (List ℚ)`,
`sf::Vector2f` as a pair of rationals, `sf::Color` channels as integers.
Randomness is modelled by threading explicit streams of draws (the values a
`std::uniform_*_distribution` would have produced); where a claim depends on a
draw, the draw's range is a hypothesis.  Transcendental library calls
(`cos`, `sin`, `sqrt`) are modelled as explicit oracle parameters, since the
rotation code only ever consumes their values.
-/

namespace BrownianMotion

/-- Matrices: `std::vector<std::vector<float>>` from `matrix_operations.h`. -/
abbrev Mat := List (List ℚ)

/-- Read entry `m[i][j]`, defaulting to `0` out of range (all verified uses
are in range, matching defined C++ behaviour). -/
def get2 (m : Mat) (i j : ℕ) : ℚ := (m.getD i []).getD j 0

/-- Write entry `m[i][j] = v` (no-op out of range; all verified uses are in
range, matching defined C++ behaviour). -/
def set2 (m : Mat) (i j : ℕ) (v : ℚ) : Mat := m.set i ((m.getD i []).set j v)

/-- Model of `std::vector::resize(n, d)`: truncate to `n` elements, or pad
with copies of `d` up to `n` elements. -/
def resizeList {α : Type} (l : List α) (n : ℕ) (d : α) : List α :=
  l.take n ++ List.replicate (n - l.length) d

/-- Length of the first row: the C++ idiom `m[0].size()`. -/
def headLen (m : Mat) : ℕ := (m.getD 0 []).length

/-- A matrix is rectangular with `r` rows and `c` columns. -/
def Rect (m : Mat) (r c : ℕ) : Prop := m.length = r ∧ ∀ row ∈ m, row.length = c

instance (m : Mat) (r c : ℕ) : Decidable (Rect m r c) := by
  unfold Rect; infer_instance

/-- The canonical `r × c` matrix whose `(i, j)` entry is `f i j`. -/
def mkMat (r c : ℕ) (f : ℕ → ℕ → ℚ) : Mat :=
  (List.range r).map (fun i => (List.range c).map (fun j => f i j))

/-! Generic machinery: a loop nest that writes value `f i j` into cell `(i, j)`
for a list of cells is a fold of single-cell writes. -/
/-- Write the value `f p.1 p.2` into cell `p`. -/
def writeCell (f : ℕ → ℕ → ℚ) (r : Mat) (p : ℕ × ℕ) : Mat := set2 r p.1 p.2 (f p.1 p.2)

/-- Write `f`-values into each cell of `ps`, in order. -/
def writeCells (f : ℕ → ℕ → ℚ) (r : Mat) (ps : List (ℕ × ℕ)) : Mat :=
  ps.foldl (writeCell f) r

/-! The iteration spaces of the loop nests, as lists of cells in visit order. -/
/-- Cells `(i, j)` for `i < m`, `j < n`, visited row-major: the classic
`for i { for j { ... } }` double loop. -/
def rowMajorPairs (m n : ℕ) : List (ℕ × ℕ) :=
  (List.range m).flatMap (fun i => (List.range n).map (fun j => (i, j)))

/-- Tile start offsets `0, bs, 2*bs, ...` below `n`: the C++ idiom
`for (x = 0; x < n; x += bs)`. -/
def tileRange (n bs : ℕ) : List ℕ := (List.range ((n + bs - 1) / bs)).map (fun g => g * bs)

/-- Cells `(i, j)` for `i < rows`, `j < cols`, visited in square-tile order
with tile edge `bs`: the blocked loop nest of the SIMD multiply (edge 64)
and of the blocked transpose (edge 32). -/
def blockedPairs (rows cols bs : ℕ) : List (ℕ × ℕ) :=
  (tileRange rows bs).flatMap (fun ii =>
    (tileRange cols bs).flatMap (fun jj =>
      (List.range (min (ii + bs) rows - ii)).flatMap (fun di =>
        (List.range (min (jj + bs) cols - jj)).map (fun dj => (ii + di, jj + dj)))))

/-- Swap the coordinates of every cell (the transpose writes `output[jj][ii]`). -/
def swapPairs (ps : List (ℕ × ℕ)) : List (ℕ × ℕ) := ps.map (fun p => (p.2, p.1))

/-- C++ `MatrixOperations::transposeMatrix` (`matrix_operations.cpp:211`):
early return on empty input, `output.resize(cols, vector<float>(rows))`, then
a blocked loop nest (tile edge 32) writing `output[jj][ii] = input[ii][jj]`.
`output` is the caller's output vector at entry. -/
def transposeMatrix (input output : Mat) : Mat :=
  if input = [] then output
  else
    let rows := input.length
    let cols := headLen input
    let out0 := resizeList output cols (List.replicate rows 0)
    (tileRange rows 32).foldl (fun o i =>
      (tileRange cols 32).foldl (fun o j =>
        (List.range (min (i + 32) rows - i)).foldl (fun o di =>
          (List.range (min (j + 32) cols - j)).foldl (fun o dj =>
            set2 o (j + dj) (i + di) (get2 input (i + di) (j + dj))) o) o) o) out0

/-! The three macro-selected implementations of
`MatrixOperations::multiplyMatrices` (`matrix_operations.cpp`).  All three
share the guard `if (a.empty() || b.empty() || a[0].size() != b.size()) return;`
which leaves the caller's `result` vector untouched. -/
/-- The `USE_SLOW_MATRIX` variant (`matrix_operations.cpp:23`): naive triple loop,
`b` accessed column-major, accumulating into `result[i][j]`. -/
def multiplyMatricesSlow (a b result : Mat) : Mat :=
  if a = [] ∨ b = [] ∨ headLen a ≠ b.length then result
  else
    let rows_a := a.length
    let cols_a := headLen a
    let cols_b := headLen b
    let r0 := resizeList result rows_a (List.replicate cols_b 0)
    (List.range rows_a).foldl (fun r i =>
      (List.range cols_b).foldl (fun r j =>
        (List.range cols_a).foldl (fun r k =>
          set2 r i j (get2 r i j + get2 a i k * get2 b k j)) (set2 r i j 0)) r) r0

/-- The `USE_FAST_MATRIX` variant (`matrix_operations.cpp:51`): transposes `b`
into a pre-sized buffer, then runs the same double loop with both operands
traversed row-major. -/
def multiplyMatricesFast (a b result : Mat) : Mat :=
  if a = [] ∨ b = [] ∨ headLen a ≠ b.length then result
  else
    let rows_a := a.length
    let cols_a := headLen a
    let cols_b := headLen b
    let bt := transposeMatrix b (List.replicate cols_b (List.replicate cols_a 0))
    let r0 := resizeList result rows_a (List.replicate cols_b 0)
    (List.range rows_a).foldl (fun r i =>
      (List.range cols_b).foldl (fun r j =>
        (List.range cols_a).foldl (fun r k =>
          set2 r i j (get2 r i j + get2 a i k * get2 bt j k)) (set2 r i j 0)) r) r0

/-- Inner reduction of the `USE_ULTRA_FAST_MATRIX` variant, scalar fallback
(`matrix_operations.cpp:161`): 4-way unrolled accumulation over
`k <= cols_a - 4`, then a scalar remainder loop.  (The NEON/SSE lanes compute
the same sums in a different association, which is identical in exact
arithmetic.) -/
def dotUnroll (a bt : Mat) (i j cols_a : ℕ) : ℚ :=
  let groups := cols_a / 4
  let main := (List.range groups).foldl (fun s g =>
    s + (get2 a i (4 * g) * get2 bt j (4 * g) +
         get2 a i (4 * g + 1) * get2 bt j (4 * g + 1) +
         get2 a i (4 * g + 2) * get2 bt j (4 * g + 2) +
         get2 a i (4 * g + 3) * get2 bt j (4 * g + 3))) 0
  (List.range (cols_a - 4 * groups)).foldl
    (fun s t => s + get2 a i (4 * groups + t) * get2 bt j (4 * groups + t)) main

/-- The `USE_ULTRA_FAST_MATRIX` variant (`matrix_operations.cpp:82`): transpose
pre-step, then a blocked loop nest (tile edge 64) writing each entry once
with the unrolled inner reduction. -/
def multiplyMatricesUltraFast (a b result : Mat) : Mat :=
  if a = [] ∨ b = [] ∨ headLen a ≠ b.length then result
  else
    let rows_a := a.length
    let cols_a := headLen a
    let cols_b := headLen b
    let bt := transposeMatrix b (List.replicate cols_b (List.replicate cols_a 0))
    let r0 := resizeList result rows_a (List.replicate cols_b 0)
    (tileRange rows_a 64).foldl (fun r ii =>
      (tileRange cols_b 64).foldl (fun r jj =>
        (List.range (min (ii + 64) rows_a - ii)).foldl (fun r di =>
          (List.range (min (jj + 64) cols_b - jj)).foldl (fun r dj =>
            set2 r (ii + di) (jj + dj)
              (dotUnroll a bt (ii + di) (jj + dj) cols_a)) r) r) r) r0

/-- C++ `MatrixOperations::createIdentityMatrix` (`matrix_operations.cpp:189`):
`matrix.resize(size, vector<float>(size, 0.0f))`, then `matrix[i][i] = 1.0f`. -/
def createIdentityMatrix (matrix : Mat) (size : ℕ) : Mat :=
  (List.range size).foldl (fun m i => set2 m i i 1)
    (resizeList matrix size (List.replicate size 0))

/-- The shape invariant maintained by the multiplication loop nests. -/
def Shaped (m n : ℕ) (r : Mat) : Prop :=
  r.length = m ∧ ∀ i' < m, (r.getD i' []).length = n

/-! The physics half: `simulation.cpp` and `obstacle_system.cpp`.
`sf::Vector2f` is a pair of rationals, `sf::Color` a quadruple of integer
channels.  Each `std::uniform_*_distribution` draw is modelled by popping the
next value from an explicit stream (rational for the real-valued
distributions, integer for `uniform_int_distribution`). -/
structure Vec2 where
  x : ℚ
  y : ℚ
deriving DecidableEq

def Vec2.add (v w : Vec2) : Vec2 := ⟨v.x + w.x, v.y + w.y⟩

def Vec2.sub (v w : Vec2) : Vec2 := ⟨v.x - w.x, v.y - w.y⟩

def Vec2.smul (v : Vec2) (k : ℚ) : Vec2 := ⟨v.x * k, v.y * k⟩

structure Color where
  r : ℤ
  g : ℤ
  b : ℤ
  a : ℤ
deriving DecidableEq

structure Particle where
  pos : Vec2
  vel : Vec2
  radius : ℚ
  color : Color
deriving DecidableEq

structure Obstacle where
  pos : Vec2
  vel : Vec2
  size : Vec2
  rotation : ℚ
  angular_velocity : ℚ
  color : Color
deriving DecidableEq

/-- Explicit random streams: `fs` feeds the real-valued distributions, `ints`
feeds `uniform_int_distribution`.  An exhausted stream repeats `0`. -/
structure Rng where
  fs : List ℚ
  ints : List ℤ
deriving DecidableEq

def Rng.drawF (g : Rng) : ℚ × Rng :=
  match g.fs with
  | [] => (0, g)
  | x :: rest => (x, { g with fs := rest })

def Rng.drawI (g : Rng) : ℤ × Rng :=
  match g.ints with
  | [] => (0, g)
  | x :: rest => (x, { g with ints := rest })

/-- Thread a random stream through an elementwise update of a list, front to
back — the shape of every `for (auto& x : xs)` loop that draws randomness. -/
def mapRng {α : Type} (f : α → Rng → α × Rng) : List α → Rng → List α × Rng
  | [], g => ([], g)
  | x :: xs, g =>
    let fg := f x g
    let rest := mapRng f xs fg.2
    (fg.1 :: rest.1, rest.2)

/-- C++ `ObstacleSystem::rotateVector(vec, angle)` (`obstacle_system.cpp:265`).
The C++ evaluates `cos(angle)` and `sin(angle)`; the embedding receives that
cosine/sine pair `(c, s)` directly, with `(c, -s)` standing for rotation by
the negated angle. -/
def rotateVector (v : Vec2) (c s : ℚ) : Vec2 :=
  ⟨v.x * c - v.y * s, v.x * s + v.y * c⟩

/-- C++ `ObstacleSystem::reflectVelocity` (`obstacle_system.cpp:256`):
`v' = v - 2 (v·n) n`. -/
def reflectVelocity (velocity normal : Vec2) : Vec2 :=
  ⟨velocity.x - 2 * (velocity.x * normal.x + velocity.y * normal.y) * normal.x,
   velocity.y - 2 * (velocity.x * normal.x + velocity.y * normal.y) * normal.y⟩

structure CollisionInfo where
  has_collision : Bool
  collision_point : Vec2
  collision_normal : Vec2
  penetration_depth : ℚ
deriving DecidableEq

/-- C++ `ObstacleSystem::checkPointRectangleCollision`
(`obstacle_system.cpp:165`).  `c`, `s` are the cosine/sine of
`obstacle.rotation`.  On the no-collision path the C++ leaves the other
fields uninitialized; the embedding zeroes them (no claim reads them there). -/
def checkPointRectangleCollision (c s : ℚ) (point : Vec2) (ob : Obstacle)
    (particle_radius : ℚ) : CollisionInfo :=
  let local_point := rotateVector (point.sub ob.pos) c (-s)
  let half_width := ob.size.x / 2 + particle_radius
  let half_height := ob.size.y / 2 + particle_radius
  if |local_point.x| ≤ half_width ∧ |local_point.y| ≤ half_height then
    let penetration_x := half_width - |local_point.x|
    let penetration_y := half_height - |local_point.y|
    let local_normal : Vec2 :=
      if penetration_x < penetration_y then
        ⟨if local_point.x > 0 then 1 else -1, 0⟩
      else
        ⟨0, if local_point.y > 0 then 1 else -1⟩
    { has_collision := true
      collision_point := point
      collision_normal := rotateVector local_normal c s
      penetration_depth :=
        if penetration_x < penetration_y then penetration_x else penetration_y }
  else
    { has_collision := false, collision_point := ⟨0, 0⟩,
      collision_normal := ⟨0, 0⟩, penetration_depth := 0 }

/-- C++ `ObstacleSystem::checkLineRectangleCollision`
(`obstacle_system.cpp:206`): both endpoints are transformed into the
obstacle's local frame; a collision is declared iff the start is outside the
expanded rectangle and the end inside, with the collision point at the local
midpoint (`t = 0.5`) mapped back to world space. -/
def checkLineRectangleCollision (c s : ℚ) (line_start line_end : Vec2)
    (ob : Obstacle) (particle_radius : ℚ) : CollisionInfo :=
  let local_start := rotateVector (line_start.sub ob.pos) c (-s)
  let local_end := rotateVector (line_end.sub ob.pos) c (-s)
  let half_width := ob.size.x / 2 + particle_radius
  let half_height := ob.size.y / 2 + particle_radius
  let start_inside := |local_start.x| ≤ half_width ∧ |local_start.y| ≤ half_height
  let end_inside := |local_end.x| ≤ half_width ∧ |local_end.y| ≤ half_height
  if ¬ start_inside ∧ end_inside then
    let local_collision := local_start.add ((local_end.sub local_start).smul (1 / 2))
    let local_normal : Vec2 :=
      if |local_collision.x| / half_width > |local_collision.y| / half_height then
        ⟨if local_collision.x > 0 then 1 else -1, 0⟩
      else
        ⟨0, if local_collision.y > 0 then 1 else -1⟩
    { has_collision := true
      collision_point := ob.pos.add (rotateVector local_collision c s)
      collision_normal := rotateVector local_normal c s
      penetration_depth := 0 }
  else
    { has_collision := false, collision_point := ⟨0, 0⟩,
      collision_normal := ⟨0, 0⟩, penetration_depth := 0 }

/-- The sweep-branch response of `ObstacleSystem::handleParticleCollision`
(`obstacle_system.cpp:147`): stop the particle at the collision point offset
by the particle radius against the normal, reflect the velocity about the
normal and damp it by 0.8, and record the collision. -/
def sweepResponse (tc : CollisionInfo) (vel : Vec2) (pr : ℚ) : Vec2 × Vec2 × Bool :=
  (tc.collision_point.sub (tc.collision_normal.smul pr),
   (reflectVelocity vel tc.collision_normal).smul 0.8, true)

/-- One iteration of the obstacle loop of
`ObstacleSystem::handleParticleCollision` (`obstacle_system.cpp:127`), acting
on the running `(position, velocity, any_collision)` state.  `origPos` is the
`original_pos` captured before the loop. -/
def collideOne (c s : ℚ) (origPos : Vec2) (pr : ℚ) (st : Vec2 × Vec2 × Bool)
    (ob : Obstacle) : Vec2 × Vec2 × Bool :=
  let pc := checkPointRectangleCollision c s st.1 ob pr
  if pc.has_collision then
    (st.1.add (pc.collision_normal.smul pc.penetration_depth),
     (reflectVelocity st.2.1 pc.collision_normal).smul 0.7, true)
  else
    let tc := checkLineRectangleCollision c s origPos st.1 ob pr
    if tc.has_collision then sweepResponse tc st.2.1 pr
    else st

/-- C++ `ObstacleSystem::handleParticleCollision` (`obstacle_system.cpp:123`):
fold the per-obstacle step over all obstacles; returns the mutated
position/velocity and whether any collision occurred.  `trig` maps an angle
to its cosine/sine pair. -/
def handleParticleCollision (trig : ℚ → ℚ × ℚ) (obs : List Obstacle)
    (pos vel : Vec2) (pr : ℚ) : (Vec2 × Vec2) × Bool :=
  let st := obs.foldl (fun st ob =>
    collideOne (trig ob.rotation).1 (trig ob.rotation).2 pos pr st ob)
    (pos, vel, false)
  ((st.1, st.2.1), st.2.2)

/-- The C library constant `M_PI` as its decimal literal; the rotation
normalization compares against `2.0f * M_PI`. -/
def m_pi : ℚ := 3.14159265358979323846

def twoPi : ℚ := 2 * m_pi

/-- Body of the obstacle loop of `ObstacleSystem::updateObstacleMovement`
(`obstacle_system.cpp:57`): advance position and rotation, normalize the
rotation by one conditional `± 2π` correction, then with the random branch
(`direction_dist(rng) > 0.95`) perturb the velocity and clamp its magnitude
to 50 (the `sqrt` call is the oracle `sqrtFn`). -/
def updateOneObstacle (sqrtFn : ℚ → ℚ) (dt : ℚ) (ob : Obstacle) (g : Rng) :
    Obstacle × Rng :=
  let px := ob.pos.x + ob.vel.x * dt
  let py := ob.pos.y + ob.vel.y * dt
  let rot1 := ob.rotation + ob.angular_velocity * dt
  let rot2 := if rot1 > twoPi then rot1 - twoPi
    else if rot1 < 0 then rot1 + twoPi else rot1
  let dg := g.drawF
  if dg.1 > 0.95 then
    let dx := dg.2.drawF
    let dy := dx.2.drawF
    let vx := ob.vel.x + dx.1
    let vy := ob.vel.y + dy.1
    let mag := sqrtFn (vx * vx + vy * vy)
    if mag > 50 then
      ({ ob with pos := ⟨px, py⟩
                 rotation := rot2
                 vel := ⟨vx / mag * 50, vy / mag * 50⟩ }, dy.2)
    else
      ({ ob with pos := ⟨px, py⟩, rotation := rot2, vel := ⟨vx, vy⟩ }, dy.2)
  else
    ({ ob with pos := ⟨px, py⟩, rotation := rot2 }, dg.2)

/-- C++ `ObstacleSystem::updateObstacleMovement` (`obstacle_system.cpp:57`). -/
def updateObstacleMovement (sqrtFn : ℚ → ℚ) (dt : ℚ) (obs : List Obstacle)
    (g : Rng) : List Obstacle × Rng :=
  mapRng (updateOneObstacle sqrtFn dt) obs g

/-- Body of the obstacle loop of `ObstacleSystem::handleObstacleBoundaries`
(`obstacle_system.cpp:91`): wall bounce with energy loss `-0.8`, position
clamp, and on any bounce an angular-velocity perturbation clamped to
`[-3, 3]`. -/
def boundOneObstacle (W H : ℚ) (ob : Obstacle) (g : Rng) : Obstacle × Rng :=
  let bx := ob.pos.x - ob.size.x / 2 ≤ 0 ∨ ob.pos.x + ob.size.x / 2 ≥ W
  let vx := if bx then ob.vel.x * (-0.8) else ob.vel.x
  let px := if bx then max (ob.size.x / 2) (min ob.pos.x (W - ob.size.x / 2)) else ob.pos.x
  let bY := ob.pos.y - ob.size.y / 2 ≤ 0 ∨ ob.pos.y + ob.size.y / 2 ≥ H
  let vy := if bY then ob.vel.y * (-0.8) else ob.vel.y
  let py := if bY then max (ob.size.y / 2) (min ob.pos.y (H - ob.size.y / 2)) else ob.pos.y
  if bx ∨ bY then
    let dg := g.drawF
    let av := max (-3) (min (ob.angular_velocity + dg.1) 3)
    ({ ob with pos := ⟨px, py⟩, vel := ⟨vx, vy⟩, angular_velocity := av }, dg.2)
  else
    ({ ob with pos := ⟨px, py⟩, vel := ⟨vx, vy⟩ }, g)

/-- C++ `ObstacleSystem::handleObstacleBoundaries` (`obstacle_system.cpp:91`). -/
def handleObstacleBoundaries (W H : ℚ) (obs : List Obstacle) (g : Rng) :
    List Obstacle × Rng :=
  mapRng (boundOneObstacle W H) obs g

/-- C++ `ObstacleSystem::update` (`obstacle_system.cpp:51`): movement update,
then boundary handling. -/
def obstacleSystemUpdate (sqrtFn : ℚ → ℚ) (W H dt : ℚ) (obs : List Obstacle)
    (g : Rng) : List Obstacle × Rng :=
  let m1 := updateObstacleMovement sqrtFn dt obs g
  handleObstacleBoundaries W H m1.1 m1.2

/-- The wall-bounce pass of `BrownianSimulation::update` for one axis
(`simulation.cpp:77`): if the position crosses `[radius, bound - radius]`,
scale the velocity by `-0.4` and clamp the position back into that interval.
Returns the new `(position, velocity)`. -/
def bounceAxis (bound radius p v : ℚ) : ℚ × ℚ :=
  if p ≤ radius ∨ p ≥ bound - radius then
    (max radius (min p (bound - radius)), v * (-0.4))
  else (p, v)

/-- Body of the particle loop of `BrownianSimulation::update`
(`simulation.cpp:60`): noise impulse scaled by `dt * 2`, damping `0.992`,
position advance by `velocity * dt * 40`, wall bounce on each axis, and the
rare (`> 0.98`) color drift with each channel clamped to `[0, 200]`. -/
def particleStep (W H dt : ℚ) (p : Particle) (g : Rng) : Particle × Rng :=
  let n1 := g.drawF
  let n2 := n1.2.drawF
  let vx1 := (p.vel.x + n1.1 * dt * 2) * 0.992
  let vy1 := (p.vel.y + n2.1 * dt * 2) * 0.992
  let px1 := p.pos.x + vx1 * dt * 40
  let py1 := p.pos.y + vy1 * dt * 40
  let bx := bounceAxis W p.radius px1 vx1
  let bY := bounceAxis H p.radius py1 vy1
  let cd := n2.2.drawF
  if cd.1 > 0.98 then
    let dr := cd.2.drawI
    let dg := dr.2.drawI
    let db := dg.2.drawI
    ({ p with pos := ⟨bx.1, bY.1⟩
              vel := ⟨bx.2, bY.2⟩
              color := ⟨max 0 (min (p.color.r + dr.1) 200),
                  max 0 (min (p.color.g + dg.1) 200),
                  max 0 (min (p.color.b + db.1) 200), p.color.a⟩ }, db.2)
  else
    ({ p with pos := ⟨bx.1, bY.1⟩, vel := ⟨bx.2, bY.2⟩ }, cd.2)

/-- C++ `Particle::Particle(x, y, r)` (`simulation.cpp:6`): zero velocity,
three color-channel draws from `uniform_int_distribution(0, 200)`, alpha
fixed at 220. -/
def Particle.create (x y r : ℚ) (d1 d2 d3 : ℤ) : Particle :=
  { pos := ⟨x, y⟩, vel := ⟨0, 0⟩, radius := r, color := ⟨d1, d2, d3, 220⟩ }

/-- The state owned by `BrownianSimulation` (plus the obstacle system member
of `simulation.h`). -/
structure SimState where
  particles : List Particle
  obstacles : List Obstacle
  transformation_matrix : Mat
  position_matrix : Mat
  result_matrix : Mat
  window_width : ℚ
  window_height : ℚ
  rng : Rng
deriving DecidableEq

/-- C++ `BrownianSimulation::update` (`simulation.cpp:53`): the matrix
multiply (the call is `fastMatrixMultiply`, whose implementation in this
repository is the `USE_FAST_MATRIX` variant of `multiplyMatrices`), then the
particle loop.  No other member is touched: in particular the obstacle
system is not updated and no collision handling is invoked. -/
def BrownianSimulation.update (dt : ℚ) (s : SimState) : SimState :=
  let result1 := multiplyMatricesFast s.transformation_matrix s.position_matrix
    s.result_matrix
  let pg := mapRng (particleStep s.window_width s.window_height dt) s.particles s.rng
  { s with result_matrix := result1, particles := pg.1, rng := pg.2 }

/-- Body of the particle loop of `BrownianSimulation::resetParticles`
(`simulation.cpp:113`): redraw the position, zero the velocity; radius and
color are untouched. -/
def resetOneParticle (p : Particle) (g : Rng) : Particle × Rng :=
  let x1 := g.drawF
  let y1 := x1.2.drawF
  ({ p with pos := ⟨x1.1, y1.1⟩, vel := ⟨0, 0⟩ }, y1.2)

/-- C++ `BrownianSimulation::resetParticles` (`simulation.cpp:113`). -/
def BrownianSimulation.resetParticles (s : SimState) : SimState :=
  let pg := mapRng resetOneParticle s.particles s.rng
  { s with particles := pg.1, rng := pg.2 }

/-- Modelled from the spec: the per-tick control flow claim C1 asserts —
"host calls Integrator.update(dt) → Obstacle Dynamics.update(dt) → for each
particle, Collision Resolver.handleCollision(particle) → host later calls
Matrix Kernel.multiply(transform, state) independently as load generation".
`trig` supplies cosine/sine pairs and `sqrtFn` the square root, as in the
component embeddings. -/
def specTickPipeline (trig : ℚ → ℚ × ℚ) (sqrtFn : ℚ → ℚ) (dt : ℚ)
    (s : SimState) : SimState :=
  let pg := mapRng (particleStep s.window_width s.window_height dt) s.particles s.rng
  let og := obstacleSystemUpdate sqrtFn s.window_width s.window_height dt
    s.obstacles pg.2
  let ps2 := pg.1.map (fun p =>
    let r := handleParticleCollision trig og.1 p.pos p.vel p.radius
    { p with pos := r.1.1, vel := r.1.2 })
  let result1 := multiplyMatricesFast s.transformation_matrix s.position_matrix
    s.result_matrix
  { s with particles := ps2
           obstacles := og.1
           result_matrix := result1
           rng := og.2 }

/-- The implicit color invariant of claim C10: every channel in `[0, 200]`
and alpha equal to 220. -/
def colorInv (col : Color) : Prop :=
  0 ≤ col.r ∧ col.r ≤ 200 ∧ 0 ≤ col.g ∧ col.g ≤ 200 ∧
    0 ≤ col.b ∧ col.b ≤ 200 ∧ col.a = 220

instance (col : Color) : Decidable (colorInv col) := by
  unfold colorInv; infer_instance

/-- Concrete obstacle for the C1 counterexample: moving right at 10 units/s,
well inside a 1200×800 window. -/
def obC1 : Obstacle :=
  { pos := ⟨300, 300⟩, vel := ⟨10, 0⟩, size := ⟨10, 10⟩, rotation := 0,
    angular_velocity := 0, color := ⟨0, 0, 0, 180⟩ }

/-- Concrete simulation state for the C1 counterexample: no particles, empty
matrices, one moving obstacle. -/
def simC1 : SimState :=
  { particles := [], obstacles := [obC1], transformation_matrix := [],
    position_matrix := [], result_matrix := [], window_width := 1200,
    window_height := 800, rng := ⟨[], []⟩ }

/-- Obstacle for the first C6 counterexample: angular velocity 3 (the
invariant ceiling), rotation 0. -/
def obC6a : Obstacle :=
  { pos := ⟨0, 0⟩, vel := ⟨0, 0⟩, size := ⟨1, 1⟩, rotation := 0,
    angular_velocity := 3, color := ⟨0, 0, 0, 180⟩ }

/-- Obstacle for the second C6 counterexample: rotation π, angular velocity 3. -/
def obC6b : Obstacle :=
  { pos := ⟨0, 0⟩, vel := ⟨0, 0⟩, size := ⟨1, 1⟩, rotation := m_pi,
    angular_velocity := 3, color := ⟨0, 0, 0, 180⟩ }

/-- Obstacle for the C6 witness: rotation 1, angular velocity 1. -/
def obC6w : Obstacle :=
  { pos := ⟨0, 0⟩, vel := ⟨0, 0⟩, size := ⟨1, 1⟩, rotation := 1,
    angular_velocity := 1, color := ⟨0, 0, 0, 180⟩ }

/-- Axis-aligned 6×4 obstacle centred at (300, 300) for the C8 witness: the
query point (302, 300) sits at local coordinate (half_width − 1, 0). -/
def obC8 : Obstacle :=
  { pos := ⟨300, 300⟩, vel := ⟨0, 0⟩, size := ⟨6, 4⟩, rotation := 0,
    angular_velocity := 0, color := ⟨0, 0, 0, 180⟩ }

/-- Axis-aligned 4×4 obstacle at the origin for the C9 witness. -/
def obC9 : Obstacle :=
  { pos := ⟨0, 0⟩, vel := ⟨0, 0⟩, size := ⟨4, 4⟩, rotation := 0,
    angular_velocity := 0, color := ⟨0, 0, 0, 180⟩ }

/-- Concrete simulation state for the C10 witness: one particle created with
in-range color draws. -/
def simC10 : SimState :=
  { particles := [Particle.create 5 6 2 10 20 30], obstacles := [],
    transformation_matrix := [], position_matrix := [], result_matrix := [],
    window_width := 1200, window_height := 800, rng := ⟨[], []⟩ }

/-! Lemmas and claim theorems. -/

/-! Basic list-level lemmas about `set`/`getD`. -/
lemma getD_set_self {α : Type} (l : List α) (n : ℕ) (v d : α) (h : n < l.length) :
    (l.set n v).getD n d = v := by
  induction l generalizing n with
  | nil => simp at h
  | cons a t ih =>
    cases n with
    | zero => simp [List.set]
    | succ k => simpa [List.set] using ih k (by simpa using h)

lemma getD_set_ne {α : Type} (l : List α) (n m : ℕ) (v d : α) (h : n ≠ m) :
    (l.set n v).getD m d = l.getD m d := by
  induction l generalizing n m with
  | nil => simp [List.set]
  | cons a t ih =>
    cases n with
    | zero =>
      cases m with
      | zero => exact absurd rfl h
      | succ k => simp [List.set]
    | succ k =>
      cases m with
      | zero => simp [List.set]
      | succ k2 => simpa [List.set] using ih k k2 (by omega)

lemma set_getD_self {α : Type} (l : List α) (n : ℕ) (d : α) (h : n < l.length) :
    l.set n (l.getD n d) = l := by
  induction l generalizing n with
  | nil => simp at h
  | cons a t ih =>
    cases n with
    | zero => simp [List.set]
    | succ k => simpa [List.set] using ih k (by simpa using h)

lemma getD_replicate {α : Type} (n i : ℕ) (a d : α) :
    (List.replicate n a).getD i d = if i < n then a else d := by
  induction n generalizing i with
  | zero => simp
  | succ k ih =>
    cases i with
    | zero => simp [List.replicate]
    | succ m => simpa [List.replicate] using ih m

/-! Lemmas about `get2`/`set2`. -/
lemma length_set2 (m : Mat) (i j : ℕ) (v : ℚ) : (set2 m i j v).length = m.length := by
  simp [set2]

lemma rowLen_set2 (m : Mat) (i j : ℕ) (v : ℚ) (i' : ℕ) :
    ((set2 m i j v).getD i' []).length = (m.getD i' []).length := by
  by_cases h : i = i'
  · subst h
    by_cases hi : i < m.length
    · rw [set2, getD_set_self _ _ _ _ hi]; simp
    · rw [set2, List.set_eq_of_length_le (by omega)]
  · rw [set2, getD_set_ne _ _ _ _ _ h]

lemma get2_set2_self (m : Mat) (i j : ℕ) (v : ℚ)
    (hi : i < m.length) (hj : j < (m.getD i []).length) :
    get2 (set2 m i j v) i j = v := by
  rw [get2, set2, getD_set_self _ _ _ _ hi, getD_set_self _ _ _ _ hj]

lemma get2_set2_ne (m : Mat) (i j i' j' : ℕ) (v : ℚ) (h : (i, j) ≠ (i', j')) :
    get2 (set2 m i' j' v) i j = get2 m i j := by
  by_cases hi : i' = i
  · have hj : j' ≠ j := by intro hj; exact h (by rw [hi, hj])
    by_cases hlen : i < m.length
    · rw [get2, set2, hi, getD_set_self _ _ _ _ hlen, getD_set_ne _ _ _ _ _ hj, get2]
    · have h1 : set2 m i' j' v = m := by
        rw [set2]; exact List.set_eq_of_length_le (by omega)
      rw [h1]
  · rw [get2, set2, getD_set_ne _ _ _ _ _ hi, get2]

lemma set2_set2 (m : Mat) (i j : ℕ) (v w : ℚ) :
    set2 (set2 m i j v) i j w = set2 m i j w := by
  by_cases hi : i < m.length
  · rw [set2, set2, getD_set_self _ _ _ _ hi, List.set_set, set2, List.set_set]
  · have h1 : set2 m i j v = m := by
      rw [set2]; exact List.set_eq_of_length_le (by omega)
    rw [h1]

lemma length_writeCells (f : ℕ → ℕ → ℚ) (ps : List (ℕ × ℕ)) :
    ∀ r : Mat, (writeCells f r ps).length = r.length := by
  induction ps with
  | nil => intro r; rfl
  | cons p t ih =>
    intro r
    rw [writeCells, List.foldl_cons, ← writeCells, ih, writeCell, length_set2]

lemma rowLen_writeCells (f : ℕ → ℕ → ℚ) (ps : List (ℕ × ℕ)) :
    ∀ (r : Mat) (i : ℕ),
      ((writeCells f r ps).getD i []).length = ((r.getD i []).length) := by
  induction ps with
  | nil => intro r i; rfl
  | cons p t ih =>
    intro r i
    rw [writeCells, List.foldl_cons, ← writeCells, ih, writeCell, rowLen_set2]

lemma get2_writeCells_notMem (f : ℕ → ℕ → ℚ) (ps : List (ℕ × ℕ)) :
    ∀ (r : Mat) (i j : ℕ), (i, j) ∉ ps →
      get2 (writeCells f r ps) i j = get2 r i j := by
  induction ps with
  | nil => intro r i j _; rfl
  | cons p t ih =>
    intro r i j h
    rw [writeCells, List.foldl_cons, ← writeCells,
      ih _ _ _ (fun hm => h (List.mem_cons_of_mem _ hm)), writeCell,
      get2_set2_ne _ _ _ _ _ _ (by intro he; exact h (by rw [he]; exact List.mem_cons_self _ _))]

lemma get2_writeCells_mem (f : ℕ → ℕ → ℚ) (ps : List (ℕ × ℕ)) :
    ∀ (r : Mat) (i j : ℕ), (i, j) ∈ ps → i < r.length → j < (r.getD i []).length →
      get2 (writeCells f r ps) i j = f i j := by
  induction ps with
  | nil => intro r i j h; simp at h
  | cons p t ih =>
    intro r i j h hi hj
    rw [writeCells, List.foldl_cons, ← writeCells]
    by_cases hm : (i, j) ∈ t
    · exact ih _ _ _ hm (by rw [writeCell, length_set2]; exact hi)
        (by rw [writeCell, rowLen_set2]; exact hj)
    · have hp : p = (i, j) := by
        rcases List.mem_cons.mp h with h1 | h2
        · exact h1.symm
        · exact absurd h2 hm
      subst hp
      rw [get2_writeCells_notMem _ _ _ _ _ hm, writeCell, get2_set2_self _ _ _ _ hi hj]

/-! Fold helpers. -/
lemma foldl_flatMap {α β γ : Type} (g : γ → β → γ) (h : α → List β) (l : List α) :
    ∀ a : γ, (l.flatMap h).foldl g a = l.foldl (fun x y => (h y).foldl g x) a := by
  induction l with
  | nil => intro a; rfl
  | cons x t ih => intro a; simp only [List.flatMap_cons, List.foldl_append, List.foldl_cons, ih]

lemma foldl_congr_inv {α β : Type} (P : α → Prop) (g h : α → β → α) (l : List β) :
    ∀ a : α, P a → (∀ x b, b ∈ l → P x → g x b = h x b) →
      (∀ x b, b ∈ l → P x → P (h x b)) → l.foldl g a = l.foldl h a := by
  induction l with
  | nil => intro a _ _ _; rfl
  | cons x t ih =>
    intro a ha hg hp
    simp only [List.foldl_cons]
    rw [hg a x (List.mem_cons_self _ _) ha]
    exact ih _ (hp a x (List.mem_cons_self _ _) ha)
      (fun y b hb hy => hg y b (List.mem_cons_of_mem _ hb) hy)
      (fun y b hb hy => hp y b (List.mem_cons_of_mem _ hb) hy)

lemma foldl_inv {α β : Type} (P : α → Prop) (h : α → β → α) (l : List β) :
    ∀ a : α, P a → (∀ x b, b ∈ l → P x → P (h x b)) → P (l.foldl h a) := by
  induction l with
  | nil => intro a ha _; exact ha
  | cons x t ih =>
    intro a ha hp
    exact ih _ (hp a x (List.mem_cons_self _ _) ha)
      (fun y b hb hy => hp y b (List.mem_cons_of_mem _ hb) hy)

lemma foldl_range_add (f : ℕ → ℚ) (n : ℕ) :
    ∀ c : ℚ, (List.range n).foldl (fun s k => s + f k) c = c + ∑ k in Finset.range n, f k := by
  induction n with
  | zero => intro c; simp
  | succ k ih =>
    intro c
    rw [List.range_succ, List.foldl_append, ih, List.foldl_cons, List.foldl_nil,
      Finset.sum_range_succ, add_assoc]

/-- The accumulation loop `result[i][j] = 0; for k { result[i][j] += t k }`
collapses to a single write of the finite sum. -/
lemma accum_loop (t : ℕ → ℚ) (n : ℕ) (r : Mat) (i j : ℕ)
    (hi : i < r.length) (hj : j < (r.getD i []).length) :
    (List.range n).foldl (fun x k => set2 x i j (get2 x i j + t k)) (set2 r i j 0) =
      set2 r i j (∑ k in Finset.range n, t k) := by
  induction n with
  | zero => simp
  | succ m ih =>
    rw [List.range_succ, List.foldl_append, ih, List.foldl_cons, List.foldl_nil,
      get2_set2_self _ _ _ _ hi hj, set2_set2, Finset.sum_range_succ]

/-! Lemmas about `mkMat`, `Rect` and `resizeList`. -/
lemma length_mkMat (r c : ℕ) (f : ℕ → ℕ → ℚ) : (mkMat r c f).length = r := by
  simp [mkMat]

lemma rowLen_mkMat (r c : ℕ) (f : ℕ → ℕ → ℚ) (i : ℕ) (hi : i < r) :
    ((mkMat r c f).getD i []).length = c := by
  rw [mkMat, List.getD_eq_getElem _ _ (by simpa using hi)]
  simp

lemma get2_mkMat (r c : ℕ) (f : ℕ → ℕ → ℚ) (i j : ℕ) (hi : i < r) (hj : j < c) :
    get2 (mkMat r c f) i j = f i j := by
  simp only [get2, mkMat]
  rw [List.getD_eq_getElem ((List.range r).map (fun i => (List.range c).map (fun j => f i j)))
    [] (by simpa using hi)]
  simp only [List.getElem_map, List.getElem_range]
  rw [List.getD_eq_getElem ((List.range c).map (fun j => f i j)) 0 (by simpa using hj)]
  simp

lemma rect_mkMat (r c : ℕ) (f : ℕ → ℕ → ℚ) : Rect (mkMat r c f) r c := by
  constructor
  · exact length_mkMat r c f
  · intro row hrow
    rcases List.mem_map.mp hrow with ⟨i, _, hrow2⟩
    simp [← hrow2]

lemma rect_rowLen (m : Mat) (r c : ℕ) (h : Rect m r c) (i : ℕ) (hi : i < r) :
    ((m.getD i []).length) = c := by
  have hlen : i < m.length := by rw [h.1]; exact hi
  rw [List.getD_eq_getElem _ _ hlen]
  exact h.2 _ (List.getElem_mem hlen)

/-- Two matrices of the same rectangular shape and the same entries agree. -/
lemma eq_of_shape_entries (m m' : Mat) (r c : ℕ)
    (h1 : m.length = r) (h2 : ∀ i < r, (m.getD i []).length = c)
    (h1' : m'.length = r) (h2' : ∀ i < r, (m'.getD i []).length = c)
    (he : ∀ i < r, ∀ j < c, get2 m i j = get2 m' i j) : m = m' := by
  apply List.ext_getElem (by omega)
  intro i hi hi'
  have hir : i < r := by omega
  apply List.ext_getElem
  · have := h2 i hir; have := h2' i hir
    rw [List.getD_eq_getElem _ _ hi] at *
    rw [List.getD_eq_getElem _ _ hi'] at *
    omega
  · intro j hj hj'
    have hjc : j < c := by
      have := h2 i hir
      rw [List.getD_eq_getElem _ _ hi] at this
      omega
    have := he i hir j hjc
    rw [get2, get2, List.getD_eq_getElem _ _ hi, List.getD_eq_getElem _ _ hi',
      List.getD_eq_getElem _ _ hj, List.getD_eq_getElem _ _ hj'] at this
    exact this

lemma rect_eq_mkMat (m : Mat) (r c : ℕ) (h : Rect m r c) :
    m = mkMat r c (fun i j => get2 m i j) := by
  apply eq_of_shape_entries m _ r c h.1 (fun i hi => rect_rowLen m r c h i hi)
    (length_mkMat _ _ _) (fun i hi => rowLen_mkMat _ _ _ i hi)
  intro i hi j hj
  rw [get2_mkMat _ _ _ _ _ hi hj]

lemma resizeList_nil {α : Type} (n : ℕ) (d : α) :
    resizeList ([] : List α) n d = List.replicate n d := by
  simp [resizeList]

lemma resizeList_replicate {α : Type} (n : ℕ) (d : α) :
    resizeList (List.replicate n d) n d = List.replicate n d := by
  simp [resizeList, List.take_replicate]

lemma mem_rowMajorPairs (m n i j : ℕ) :
    (i, j) ∈ rowMajorPairs m n ↔ i < m ∧ j < n := by
  simp only [rowMajorPairs, List.mem_flatMap, List.mem_map, List.mem_range, Prod.mk.injEq]
  constructor
  · rintro ⟨a, ha, b, hb, rfl, rfl⟩; exact ⟨ha, hb⟩
  · rintro ⟨hi, hj⟩; exact ⟨i, hi, j, hj, rfl, rfl⟩

lemma tile_div_lt (n x bs : ℕ) (hbs : 0 < bs) (hx : x < n) :
    x / bs < (n + bs - 1) / bs := by
  have e1 : n + bs - 1 = (n - 1) + bs := by omega
  have e2 : ((n - 1) + bs) / bs = (n - 1) / bs + 1 := Nat.add_div_right _ hbs
  have e3 : x / bs ≤ (n - 1) / bs := Nat.div_le_div_right (by omega)
  rw [e1, e2]; omega

lemma mem_blockedPairs (rows cols bs i j : ℕ) (hbs : 0 < bs) :
    (i, j) ∈ blockedPairs rows cols bs ↔ i < rows ∧ j < cols := by
  simp only [blockedPairs, tileRange, List.mem_flatMap, List.mem_map, List.mem_range,
    Prod.mk.injEq]
  constructor
  · rintro ⟨ii, ⟨g, hg, rfl⟩, jj, ⟨g2, hg2, rfl⟩, di, hdi, dj, hdj, rfl, rfl⟩
    have h1 : min (g * bs + bs) rows ≤ rows := min_le_right _ _
    have h2 : min (g2 * bs + bs) cols ≤ cols := min_le_right _ _
    omega
  · rintro ⟨hi, hj⟩
    have hdm1 : i / bs * bs + i % bs = i := by
      have h := Nat.div_add_mod i bs
      rw [Nat.mul_comm] at h; exact h
    have hdm2 : j / bs * bs + j % bs = j := by
      have h := Nat.div_add_mod j bs
      rw [Nat.mul_comm] at h; exact h
    have hm1 : i % bs < bs := Nat.mod_lt _ hbs
    have hm2 : j % bs < bs := Nat.mod_lt _ hbs
    exact ⟨i / bs * bs, ⟨i / bs, tile_div_lt rows i bs hbs hi, rfl⟩,
      j / bs * bs, ⟨j / bs, tile_div_lt cols j bs hbs hj, rfl⟩,
      i % bs, by omega, j % bs, by omega, by omega, by omega⟩

lemma mem_swapPairs (ps : List (ℕ × ℕ)) (x y : ℕ) :
    (x, y) ∈ swapPairs ps ↔ (y, x) ∈ ps := by
  simp only [swapPairs, List.mem_map, Prod.mk.injEq]
  constructor
  · rintro ⟨⟨u, v⟩, hm, rfl, rfl⟩; exact hm
  · intro hm; exact ⟨(y, x), hm, rfl, rfl⟩

lemma transposeMatrix_loops (input output : Mat) (hne : input ≠ []) :
    transposeMatrix input output =
      writeCells (fun jj ii => get2 input ii jj)
        (resizeList output (headLen input) (List.replicate input.length 0))
        (swapPairs (blockedPairs input.length (headLen input) 32)) := by
  rw [transposeMatrix, if_neg hne, writeCells, swapPairs, List.foldl_map, blockedPairs,
    foldl_flatMap]
  simp only [foldl_flatMap, List.foldl_map]
  rfl

lemma replicate_base_length (c r : ℕ) :
    (List.replicate c (List.replicate r (0 : ℚ))).length = c := by simp

lemma replicate_base_rowLen (c r i : ℕ) (hi : i < c) :
    ((List.replicate c (List.replicate r (0 : ℚ))).getD i []).length = r := by
  rw [getD_replicate]; simp [hi]

/-- For a rectangular `r × c` input (and an output vector whose resize yields
the all-zero `c × r` grid, e.g. the empty vector or the all-zero grid itself),
the blocked transpose computes the mathematical transpose. -/
lemma transposeMatrix_char (input : Mat) (r c : ℕ) (output : Mat)
    (hrect : Rect input r c) (hr : 0 < r)
    (hout : resizeList output c (List.replicate r 0) =
      List.replicate c (List.replicate r 0)) :
    transposeMatrix input output = mkMat c r (fun j i => get2 input i j) := by
  have hne : input ≠ [] := by
    intro h
    have h1 := hrect.1
    rw [h] at h1
    simp at h1
    omega
  have hc : headLen input = c := by rw [headLen, rect_rowLen input r c hrect 0 hr]
  have hrlen : input.length = r := hrect.1
  rw [transposeMatrix_loops input output hne, hc, hrlen, hout]
  apply eq_of_shape_entries _ _ c r
  · rw [length_writeCells, replicate_base_length]
  · intro i hi
    rw [rowLen_writeCells, replicate_base_rowLen c r i hi]
  · exact length_mkMat _ _ _
  · intro i hi; exact rowLen_mkMat _ _ _ i hi
  · intro j hj i hi
    rw [get2_mkMat _ _ _ _ _ hj hi]
    apply get2_writeCells_mem
    · rw [mem_swapPairs, mem_blockedPairs _ _ _ _ _ (by norm_num)]
      exact ⟨hi, hj⟩
    · rw [replicate_base_length]; exact hj
    · rw [replicate_base_rowLen c r j hj]; exact hi

lemma shaped_writeCell (m n : ℕ) (f : ℕ → ℕ → ℚ) (r : Mat) (p : ℕ × ℕ)
    (h : Shaped m n r) : Shaped m n (writeCell f r p) := by
  refine ⟨?_, ?_⟩
  · rw [writeCell, length_set2]; exact h.1
  · intro i' hi'; rw [writeCell, rowLen_set2]; exact h.2 i' hi'

lemma shaped_replicate (m n : ℕ) :
    Shaped m n (List.replicate m (List.replicate n (0 : ℚ))) :=
  ⟨replicate_base_length m n, fun i hi => replicate_base_rowLen m n i hi⟩

/-- The row-major double loop with an accumulation inner loop is the fold of
single-cell writes of finite sums. -/
lemma accumLoops_eq_writeCells (t : ℕ → ℕ → ℕ → ℚ) (m n kk : ℕ) (base : Mat)
    (hbase : Shaped m n base) :
    (List.range m).foldl (fun r i =>
      (List.range n).foldl (fun r j =>
        (List.range kk).foldl (fun r k =>
          set2 r i j (get2 r i j + t i j k)) (set2 r i j 0)) r) base =
    writeCells (fun i j => ∑ x in Finset.range kk, t i j x) base (rowMajorPairs m n) := by
  rw [writeCells, rowMajorPairs, foldl_flatMap]
  simp only [List.foldl_map]
  apply foldl_congr_inv (Shaped m n) _ _ _ _ hbase
  · intro r i hi hr
    apply foldl_congr_inv (Shaped m n) _ _ _ _ hr
    · intro r' j hj hr'
      rw [accum_loop (t i j) kk r' i j
        (by rw [hr'.1]; exact List.mem_range.mp hi)
        (by rw [hr'.2 i (List.mem_range.mp hi)]; exact List.mem_range.mp hj)]
      rfl
    · intro r' j hj hr'
      exact shaped_writeCell m n _ r' (i, j) hr'
  · intro r i hi hr
    apply foldl_inv (Shaped m n) _ _ _ hr
    intro r' j hj hr'
    exact shaped_writeCell m n _ r' (i, j) hr'

lemma shaped_writeCells (m n : ℕ) (f : ℕ → ℕ → ℚ) (base : Mat) (ps : List (ℕ × ℕ))
    (hbase : Shaped m n base) : Shaped m n (writeCells f base ps) :=
  ⟨by rw [length_writeCells]; exact hbase.1,
   fun i hi => by rw [rowLen_writeCells]; exact hbase.2 i hi⟩

/-- A `writeCells` pass over cells covering exactly the `m × n` grid, starting
from the zero grid, builds `mkMat m n f`. -/
lemma writeCells_eq_mkMat (f : ℕ → ℕ → ℚ) (m n : ℕ) (ps : List (ℕ × ℕ))
    (hps : ∀ i j, (i, j) ∈ ps ↔ i < m ∧ j < n) :
    writeCells f (List.replicate m (List.replicate n 0)) ps = mkMat m n f := by
  apply eq_of_shape_entries _ _ m n
  · rw [length_writeCells, replicate_base_length]
  · intro i hi; rw [rowLen_writeCells, replicate_base_rowLen m n i hi]
  · exact length_mkMat _ _ _
  · intro i hi; exact rowLen_mkMat _ _ _ i hi
  · intro i hi j hj
    rw [get2_mkMat _ _ _ _ _ hi hj]
    apply get2_writeCells_mem
    · rw [hps]; exact ⟨hi, hj⟩
    · rw [replicate_base_length]; exact hi
    · rw [replicate_base_rowLen m n i hi]; exact hj

lemma not_guard (a b : Mat) (m k n : ℕ) (ha : Rect a m k) (hb : Rect b k n)
    (hm : 0 < m) (hk : 0 < k) : ¬ (a = [] ∨ b = [] ∨ headLen a ≠ b.length) := by
  push_neg
  refine ⟨?_, ?_, ?_⟩
  · intro h
    have h1 := ha.1
    rw [h] at h1; simp at h1; omega
  · intro h
    have h1 := hb.1
    rw [h] at h1; simp at h1; omega
  · rw [headLen, rect_rowLen a m k ha 0 hm, hb.1]

lemma mkMat_congr (r c : ℕ) (f g : ℕ → ℕ → ℚ) (h : ∀ i < r, ∀ j < c, f i j = g i j) :
    mkMat r c f = mkMat r c g := by
  apply eq_of_shape_entries _ _ r c (length_mkMat _ _ _)
    (fun i hi => rowLen_mkMat _ _ _ i hi) (length_mkMat _ _ _)
    (fun i hi => rowLen_mkMat _ _ _ i hi)
  intro i hi j hj
  rw [get2_mkMat _ _ _ _ _ hi hj, get2_mkMat _ _ _ _ _ hi hj, h i hi j hj]

/-- Characterization of the naive multiply on rectangular conformant inputs
with an initially empty result vector. -/
lemma multiplyMatricesSlow_char (a b : Mat) (m k n : ℕ)
    (ha : Rect a m k) (hb : Rect b k n) (hm : 0 < m) (hk : 0 < k) :
    multiplyMatricesSlow a b [] =
      mkMat m n (fun i j => ∑ x in Finset.range k, get2 a i x * get2 b x j) := by
  have hka : headLen a = k := by rw [headLen, rect_rowLen a m k ha 0 hm]
  have hkb : headLen b = n := by rw [headLen, rect_rowLen b k n hb 0 hk]
  simp only [multiplyMatricesSlow]
  rw [if_neg (not_guard a b m k n ha hb hm hk), ha.1, hka, hkb, resizeList_nil]
  rw [accumLoops_eq_writeCells (fun i j x => get2 a i x * get2 b x j) m n k _
    (shaped_replicate m n)]
  exact writeCells_eq_mkMat _ m n _ (fun i j => mem_rowMajorPairs m n i j)

/-- Characterization of the cache-blocked (transposed) multiply. -/
lemma multiplyMatricesFast_char (a b : Mat) (m k n : ℕ)
    (ha : Rect a m k) (hb : Rect b k n) (hm : 0 < m) (hk : 0 < k) :
    multiplyMatricesFast a b [] =
      mkMat m n (fun i j => ∑ x in Finset.range k, get2 a i x * get2 b x j) := by
  have hka : headLen a = k := by rw [headLen, rect_rowLen a m k ha 0 hm]
  have hkb : headLen b = n := by rw [headLen, rect_rowLen b k n hb 0 hk]
  have hbt : transposeMatrix b (List.replicate n (List.replicate k 0)) =
      mkMat n k (fun j i => get2 b i j) :=
    transposeMatrix_char b k n _ hb hk (resizeList_replicate n _)
  simp only [multiplyMatricesFast]
  rw [if_neg (not_guard a b m k n ha hb hm hk), ha.1, hka, hkb, resizeList_nil, hbt]
  rw [accumLoops_eq_writeCells
    (fun i j x => get2 a i x * get2 (mkMat n k (fun j i => get2 b i j)) j x) m n k _
    (shaped_replicate m n)]
  rw [writeCells_eq_mkMat _ m n _ (fun i j => mem_rowMajorPairs m n i j)]
  apply mkMat_congr
  intro i _ j hj
  apply Finset.sum_congr rfl
  intro x hx
  rw [get2_mkMat n k _ j x hj (Finset.mem_range.mp hx)]

lemma sum_four_groups (f : ℕ → ℚ) (G : ℕ) :
    ∑ g in Finset.range G,
        (f (4 * g) + f (4 * g + 1) + f (4 * g + 2) + f (4 * g + 3)) =
      ∑ x in Finset.range (4 * G), f x := by
  induction G with
  | zero => simp
  | succ t ih =>
    rw [Finset.sum_range_succ, ih]
    have e2 : 4 * (t + 1) = 4 * t + 3 + 1 := by ring
    have e3 : 4 * t + 3 = 4 * t + 2 + 1 := by omega
    have e4 : 4 * t + 2 = 4 * t + 1 + 1 := by omega
    rw [e2, Finset.sum_range_succ, e3, Finset.sum_range_succ, e4, Finset.sum_range_succ,
      Finset.sum_range_succ]
    ring

lemma dotUnroll_eq (a bt : Mat) (i j ka : ℕ) :
    dotUnroll a bt i j ka = ∑ x in Finset.range ka, get2 a i x * get2 bt j x := by
  simp only [dotUnroll]
  rw [foldl_range_add, foldl_range_add, zero_add]
  rw [sum_four_groups (fun x => get2 a i x * get2 bt j x) (ka / 4)]
  rw [← Finset.sum_range_add (fun x => get2 a i x * get2 bt j x) (4 * (ka / 4))
    (ka - 4 * (ka / 4))]
  have he : 4 * (ka / 4) + (ka - 4 * (ka / 4)) = ka := by omega
  rw [he]

/-- The blocked double loop writing each entry once is a `writeCells` pass
over `blockedPairs`. -/
lemma blockedWrite_eq_writeCells (g : ℕ → ℕ → ℚ) (m n : ℕ) (base : Mat) :
    (tileRange m 64).foldl (fun r ii =>
      (tileRange n 64).foldl (fun r jj =>
        (List.range (min (ii + 64) m - ii)).foldl (fun r di =>
          (List.range (min (jj + 64) n - jj)).foldl (fun r dj =>
            set2 r (ii + di) (jj + dj) (g (ii + di) (jj + dj))) r) r) r) base =
      writeCells g base (blockedPairs m n 64) := by
  rw [writeCells, blockedPairs, foldl_flatMap]
  simp only [foldl_flatMap, List.foldl_map]
  rfl

/-- Characterization of the SIMD-blocked multiply (scalar fallback). -/
lemma multiplyMatricesUltraFast_char (a b : Mat) (m k n : ℕ)
    (ha : Rect a m k) (hb : Rect b k n) (hm : 0 < m) (hk : 0 < k) :
    multiplyMatricesUltraFast a b [] =
      mkMat m n (fun i j => ∑ x in Finset.range k, get2 a i x * get2 b x j) := by
  have hka : headLen a = k := by rw [headLen, rect_rowLen a m k ha 0 hm]
  have hkb : headLen b = n := by rw [headLen, rect_rowLen b k n hb 0 hk]
  have hbt : transposeMatrix b (List.replicate n (List.replicate k 0)) =
      mkMat n k (fun j i => get2 b i j) :=
    transposeMatrix_char b k n _ hb hk (resizeList_replicate n _)
  simp only [multiplyMatricesUltraFast]
  rw [if_neg (not_guard a b m k n ha hb hm hk), ha.1, hka, hkb, resizeList_nil, hbt]
  rw [blockedWrite_eq_writeCells
    (fun i j => dotUnroll a (mkMat n k (fun j i => get2 b i j)) i j k) m n _]
  rw [writeCells_eq_mkMat _ m n _
    (fun i j => mem_blockedPairs m n 64 i j (by norm_num))]
  apply mkMat_congr
  intro i _ j hj
  rw [dotUnroll_eq]
  apply Finset.sum_congr rfl
  intro x hx
  rw [get2_mkMat n k _ j x hj (Finset.mem_range.mp hx)]

lemma get2_replicate_zero (c r i j : ℕ) :
    get2 (List.replicate c (List.replicate r (0 : ℚ))) i j = 0 := by
  rw [get2, getD_replicate]
  split_ifs <;> simp [getD_replicate]

lemma mem_diagPairs (size i j : ℕ) :
    (i, j) ∈ (List.range size).map (fun x => (x, x)) ↔ i = j ∧ i < size := by
  simp only [List.mem_map, List.mem_range, Prod.mk.injEq]
  constructor
  · rintro ⟨x, hx, rfl, rfl⟩; exact ⟨rfl, hx⟩
  · rintro ⟨rfl, hi⟩; exact ⟨i, hi, rfl, rfl⟩

/-- Built into an initially empty vector, `createIdentityMatrix` yields the
identity grid. -/
lemma createIdentityMatrix_char (size : ℕ) :
    createIdentityMatrix [] size =
      mkMat size size (fun i j => if i = j then 1 else 0) := by
  rw [createIdentityMatrix, resizeList_nil]
  have hfun : (fun (m : Mat) i => set2 m i i 1) =
      fun (m : Mat) i => writeCell (fun i j => if i = j then (1 : ℚ) else 0) m (i, i) := by
    funext m i
    rw [writeCell]
    simp
  rw [hfun]
  have hconv : (List.range size).foldl
      (fun (m : Mat) i => writeCell (fun i j => if i = j then (1 : ℚ) else 0) m (i, i))
      (List.replicate size (List.replicate size 0)) =
      writeCells (fun i j => if i = j then 1 else 0)
        (List.replicate size (List.replicate size 0))
        ((List.range size).map (fun x => (x, x))) := by
    rw [writeCells, List.foldl_map]
  rw [hconv]
  apply eq_of_shape_entries _ _ size size
  · rw [length_writeCells, replicate_base_length]
  · intro i hi; rw [rowLen_writeCells, replicate_base_rowLen size size i hi]
  · exact length_mkMat _ _ _
  · intro i hi; exact rowLen_mkMat _ _ _ i hi
  · intro i hi j hj
    rw [get2_mkMat _ _ _ _ _ hi hj]
    by_cases hij : i = j
    · subst hij
      rw [get2_writeCells_mem _ _ _ _ _ ((mem_diagPairs size i i).mpr ⟨rfl, hi⟩)
        (by rw [replicate_base_length]; exact hi)
        (by rw [replicate_base_rowLen size size i hi]; exact hi)]
    · rw [get2_writeCells_notMem _ _ _ _ _
        (fun hmem => hij ((mem_diagPairs size i j).mp hmem).1)]
      rw [get2_replicate_zero, if_neg hij]

/-! Claims C2-C5: the matrix kernel. -/
/-- Claim C2, counterexample: with both inputs empty (a guard violation) and a
non-empty result vector at entry, `multiplyMatrices` does NOT yield an empty
result matrix — the guard path returns leaving the caller's `result`
untouched. -/
theorem C2_counterexample :
    multiplyMatricesSlow [] [] [[(1 : ℚ)]] ≠ ([] : Mat) := by decide

/-- Claim C2 (amended): on a precondition violation (either matrix empty, or
`A.cols != B.rows`) every `multiplyMatrices` variant performs no further work
and leaves the `result` output parameter exactly as it was at entry — hence
the result is empty precisely when it was empty at entry. -/
theorem C2_guard_leaves_result (a b result : Mat)
    (h : a = [] ∨ b = [] ∨ headLen a ≠ b.length) :
    multiplyMatricesSlow a b result = result ∧
    multiplyMatricesFast a b result = result ∧
    multiplyMatricesUltraFast a b result = result := by
  refine ⟨?_, ?_, ?_⟩
  · rw [multiplyMatricesSlow, if_pos h]
  · rw [multiplyMatricesFast, if_pos h]
  · rw [multiplyMatricesUltraFast, if_pos h]

/-- Witness for C2: the guard fires on empty inputs and leaves a non-empty
result vector unchanged. -/
theorem C2_witness :
    (([] : Mat) = [] ∨ ([] : Mat) = [] ∨ headLen [] ≠ ([] : Mat).length) ∧
      (multiplyMatricesSlow [] [] [[(1 : ℚ)]] = [[(1 : ℚ)]] ∧
       multiplyMatricesFast [] [] [[(1 : ℚ)]] = [[(1 : ℚ)]] ∧
       multiplyMatricesUltraFast [] [] [[(1 : ℚ)]] = [[(1 : ℚ)]]) :=
  ⟨by decide, C2_guard_leaves_result [] [] [[(1 : ℚ)]] (by decide)⟩

/-- Claim C3: for non-empty conformant rectangular matrices `A` (m×k) and `B`
(k×n), the naive, cache-blocked, and SIMD-blocked (scalar-fallback)
multiplication strategies all compute the same mathematical product, whose
`(i, j)` entry is `∑ x, A[i][x] * B[x][j]`. -/
theorem C3_strategies_agree (a b : Mat) (m k n : ℕ)
    (ha : Rect a m k) (hb : Rect b k n) (hm : 0 < m) (hk : 0 < k) :
    multiplyMatricesSlow a b [] =
      mkMat m n (fun i j => ∑ x in Finset.range k, get2 a i x * get2 b x j) ∧
    multiplyMatricesFast a b [] =
      mkMat m n (fun i j => ∑ x in Finset.range k, get2 a i x * get2 b x j) ∧
    multiplyMatricesUltraFast a b [] =
      mkMat m n (fun i j => ∑ x in Finset.range k, get2 a i x * get2 b x j) :=
  ⟨multiplyMatricesSlow_char a b m k n ha hb hm hk,
   multiplyMatricesFast_char a b m k n ha hb hm hk,
   multiplyMatricesUltraFast_char a b m k n ha hb hm hk⟩

/-- Witness for C3 at a concrete 2×2 pair of matrices. -/
theorem C3_witness :
    (Rect [[(1 : ℚ), 2], [3, 4]] 2 2 ∧ Rect [[(5 : ℚ), 6], [7, 8]] 2 2 ∧
      0 < 2 ∧ 0 < 2) ∧
    (multiplyMatricesSlow [[(1 : ℚ), 2], [3, 4]] [[(5 : ℚ), 6], [7, 8]] [] =
      mkMat 2 2 (fun i j => ∑ x in Finset.range 2,
        get2 [[(1 : ℚ), 2], [3, 4]] i x * get2 [[(5 : ℚ), 6], [7, 8]] x j) ∧
     multiplyMatricesFast [[(1 : ℚ), 2], [3, 4]] [[(5 : ℚ), 6], [7, 8]] [] =
      mkMat 2 2 (fun i j => ∑ x in Finset.range 2,
        get2 [[(1 : ℚ), 2], [3, 4]] i x * get2 [[(5 : ℚ), 6], [7, 8]] x j) ∧
     multiplyMatricesUltraFast [[(1 : ℚ), 2], [3, 4]] [[(5 : ℚ), 6], [7, 8]] [] =
      mkMat 2 2 (fun i j => ∑ x in Finset.range 2,
        get2 [[(1 : ℚ), 2], [3, 4]] i x * get2 [[(5 : ℚ), 6], [7, 8]] x j)) :=
  ⟨⟨by decide, by decide, by decide, by decide⟩,
   C3_strategies_agree [[(1 : ℚ), 2], [3, 4]] [[(5 : ℚ), 6], [7, 8]] 2 2 2
     (by decide) (by decide) (by decide) (by decide)⟩

lemma identity_entry (m i x : ℕ) (hi : i < m) (hx : x < m) :
    get2 (createIdentityMatrix [] m) i x = if i = x then 1 else 0 := by
  rw [createIdentityMatrix_char, get2_mkMat _ _ _ _ _ hi hx]

lemma identity_product_entry (m n : ℕ) (B : Mat) (i j : ℕ) (hi : i < m) :
    ∑ x in Finset.range m, get2 (createIdentityMatrix [] m) i x * get2 B x j =
      get2 B i j := by
  rw [Finset.sum_eq_single_of_mem i (Finset.mem_range.mpr hi)]
  · rw [identity_entry m i i hi hi, if_pos rfl, one_mul]
  · intro x hx hxi
    rw [identity_entry m i x hi (Finset.mem_range.mp hx),
      if_neg (fun h => hxi h.symm), zero_mul]

lemma rect_createIdentityMatrix (m : ℕ) : Rect (createIdentityMatrix [] m) m m := by
  rw [createIdentityMatrix_char]
  exact rect_mkMat m m _

/-- Claim C4: for every `m ≥ 1`, `n ≥ 1` and rectangular `m×n` matrix `B`,
multiplying `identity(m)` (generated into an initially empty output) by `B`
under each of the three strategy tiers yields an `m×n` matrix equal to `B`
entrywise within absolute tolerance `1e-4` (in the exact-arithmetic model the
difference is `0`). -/
theorem C4_identity_multiply (m n : ℕ) (B : Mat)
    (hm : 0 < m) (hn : 0 < n) (hB : Rect B m n) :
    (Rect (multiplyMatricesSlow (createIdentityMatrix [] m) B []) m n ∧
      ∀ i < m, ∀ j < n,
        |get2 (multiplyMatricesSlow (createIdentityMatrix [] m) B []) i j -
          get2 B i j| ≤ 1 / 10000) ∧
    (Rect (multiplyMatricesFast (createIdentityMatrix [] m) B []) m n ∧
      ∀ i < m, ∀ j < n,
        |get2 (multiplyMatricesFast (createIdentityMatrix [] m) B []) i j -
          get2 B i j| ≤ 1 / 10000) ∧
    (Rect (multiplyMatricesUltraFast (createIdentityMatrix [] m) B []) m n ∧
      ∀ i < m, ∀ j < n,
        |get2 (multiplyMatricesUltraFast (createIdentityMatrix [] m) B []) i j -
          get2 B i j| ≤ 1 / 10000) := by
  have hid : Rect (createIdentityMatrix [] m) m m := rect_createIdentityMatrix m
  have hslow := multiplyMatricesSlow_char (createIdentityMatrix [] m) B m m n hid hB hm hm
  have hfast := multiplyMatricesFast_char (createIdentityMatrix [] m) B m m n hid hB hm hm
  have hultra := multiplyMatricesUltraFast_char (createIdentityMatrix [] m) B m m n hid hB hm hm
  refine ⟨⟨?_, ?_⟩, ⟨?_, ?_⟩, ⟨?_, ?_⟩⟩ <;>
    first
      | (rw [hslow]; first
          | exact rect_mkMat m n _
          | (intro i hi j hj
             rw [get2_mkMat _ _ _ _ _ hi hj, identity_product_entry m n B i j hi]
             simp))
      | (rw [hfast]; first
          | exact rect_mkMat m n _
          | (intro i hi j hj
             rw [get2_mkMat _ _ _ _ _ hi hj, identity_product_entry m n B i j hi]
             simp))
      | (rw [hultra]; first
          | exact rect_mkMat m n _
          | (intro i hi j hj
             rw [get2_mkMat _ _ _ _ _ hi hj, identity_product_entry m n B i j hi]
             simp))

/-- Witness for C4 at a concrete 2×2 matrix. -/
theorem C4_witness :
    (0 < 2 ∧ 0 < 2 ∧ Rect [[(9 : ℚ), -3], [2, 7]] 2 2) ∧
    ((Rect (multiplyMatricesSlow (createIdentityMatrix [] 2) [[(9 : ℚ), -3], [2, 7]] []) 2 2 ∧
      ∀ i < 2, ∀ j < 2,
        |get2 (multiplyMatricesSlow (createIdentityMatrix [] 2) [[(9 : ℚ), -3], [2, 7]] []) i j -
          get2 [[(9 : ℚ), -3], [2, 7]] i j| ≤ 1 / 10000) ∧
     (Rect (multiplyMatricesFast (createIdentityMatrix [] 2) [[(9 : ℚ), -3], [2, 7]] []) 2 2 ∧
      ∀ i < 2, ∀ j < 2,
        |get2 (multiplyMatricesFast (createIdentityMatrix [] 2) [[(9 : ℚ), -3], [2, 7]] []) i j -
          get2 [[(9 : ℚ), -3], [2, 7]] i j| ≤ 1 / 10000) ∧
     (Rect (multiplyMatricesUltraFast (createIdentityMatrix [] 2) [[(9 : ℚ), -3], [2, 7]] []) 2 2 ∧
      ∀ i < 2, ∀ j < 2,
        |get2 (multiplyMatricesUltraFast (createIdentityMatrix [] 2) [[(9 : ℚ), -3], [2, 7]] []) i j -
          get2 [[(9 : ℚ), -3], [2, 7]] i j| ≤ 1 / 10000)) :=
  ⟨⟨by decide, by decide, by decide⟩,
   C4_identity_multiply 2 2 [[(9 : ℚ), -3], [2, 7]] (by decide) (by decide) (by decide)⟩

/-- Claim C5, counterexample: `[[]]` is rectangular (one row of length 0), yet
the double blocked transpose of `[[]]` is `[]`, not `[[]]` — the first
transpose resizes the output to zero rows, and the second hits the
empty-input guard. -/
theorem C5_counterexample :
    Rect ([[]] : Mat) 1 0 ∧
      transposeMatrix (transposeMatrix ([[]] : Mat) []) [] ≠ ([[]] : Mat) := by
  constructor <;> decide

/-- Claim C5 (amended): for every rectangular matrix `M` with at least one
column (this includes the empty matrix, as `Rect [] 0 c`), applying the
blocked `transposeMatrix` twice, each time into an initially empty output,
returns a matrix exactly equal to `M`.  (Rectangular matrices with zero-length
rows are the exception forced by the counterexample: their transpose is `[]`.) -/
theorem C5_double_transpose (M : Mat) (r c : ℕ) (hrect : Rect M r c) (hc : 0 < c) :
    transposeMatrix (transposeMatrix M []) [] = M := by
  by_cases hr : 0 < r
  · have h1 : transposeMatrix M [] = mkMat c r (fun j i => get2 M i j) :=
      transposeMatrix_char M r c [] hrect hr (resizeList_nil _ _)
    have h2 : transposeMatrix (mkMat c r (fun j i => get2 M i j)) [] =
        mkMat r c (fun q p => get2 (mkMat c r (fun j i => get2 M i j)) p q) :=
      transposeMatrix_char _ c r [] (rect_mkMat c r _) hc (resizeList_nil _ _)
    rw [h1, h2]
    have h3 : mkMat r c (fun q p => get2 (mkMat c r (fun j i => get2 M i j)) p q) =
        mkMat r c (fun p q => get2 M p q) := by
      apply mkMat_congr
      intro p hp q hq
      rw [get2_mkMat c r _ q p hq hp]
    rw [h3, ← rect_eq_mkMat M r c hrect]
  · have hM : M = [] := by
      cases M with
      | nil => rfl
      | cons x t =>
        have h1 := hrect.1
        simp at h1
        omega
    subst hM
    rfl

/-- Witness for C5 at a concrete 2×3 matrix. -/
theorem C5_witness :
    (Rect [[(1 : ℚ), 2, 3], [4, 5, 6]] 2 3 ∧ 0 < 3) ∧
      transposeMatrix (transposeMatrix [[(1 : ℚ), 2, 3], [4, 5, 6]] []) [] =
        [[(1 : ℚ), 2, 3], [4, 5, 6]] :=
  ⟨⟨by decide, by decide⟩,
   C5_double_transpose [[(1 : ℚ), 2, 3], [4, 5, 6]] 2 3 (by decide) (by decide)⟩

/-! Claim C1: the per-tick control flow. -/
/-- Claim C1, counterexample: the spec's per-tick pipeline advances every
obstacle, but one tick of `BrownianSimulation::update` leaves the obstacle
list untouched — `ObstacleSystem::update` and `handleParticleCollision` are
never invoked from the tick.  At a state with one obstacle moving at
velocity (10, 0) and `dt = 1`, the pipeline moves it to x = 310 while the
code's tick leaves it at x = 300. -/
theorem C1_counterexample :
    (BrownianSimulation.update 1 simC1).obstacles = simC1.obstacles ∧
    (specTickPipeline (fun _ => (1, 0)) (fun _ => 0) 1 simC1).obstacles ≠
      simC1.obstacles := by
  constructor
  · rfl
  · norm_num [specTickPipeline, simC1, obC1, mapRng, obstacleSystemUpdate,
      updateObstacleMovement, handleObstacleBoundaries, updateOneObstacle,
      boundOneObstacle, Rng.drawF, twoPi, m_pi, Obstacle.mk.injEq, Vec2.mk.injEq]

/-- Claim C1 (amended): per tick, `BrownianSimulation::update` performs the
matrix multiply — reading only the three matrix members, with no data
dependency on particles — and the particle integrator advances every
particle; the obstacle dynamics update and the collision resolver are never
invoked, so the obstacle state is unchanged by the tick. -/
theorem C1_update_pipeline (dt : ℚ) (s : SimState) :
    (BrownianSimulation.update dt s).obstacles = s.obstacles ∧
    (BrownianSimulation.update dt s).result_matrix =
      multiplyMatricesFast s.transformation_matrix s.position_matrix
        s.result_matrix ∧
    (BrownianSimulation.update dt s).particles =
      (mapRng (particleStep s.window_width s.window_height dt) s.particles
        s.rng).1 :=
  ⟨rfl, rfl, rfl⟩

/-! Claim C6: the obstacle rotation range. -/
/-- The rotation written by the obstacle movement update is the advanced
rotation with one conditional `± 2π` correction, in every random branch. -/
lemma updateOneObstacle_rotation (sq : ℚ → ℚ) (dt : ℚ) (ob : Obstacle) (g : Rng) :
    (updateOneObstacle sq dt ob g).1.rotation =
      (if ob.rotation + ob.angular_velocity * dt > twoPi then
        ob.rotation + ob.angular_velocity * dt - twoPi
      else if ob.rotation + ob.angular_velocity * dt < 0 then
        ob.rotation + ob.angular_velocity * dt + twoPi
      else ob.rotation + ob.angular_velocity * dt) := by
  simp only [updateOneObstacle]
  split_ifs <;> rfl

/-- Claim C6, counterexample: the normalization is a single conditional
correction, not a reduction into `[0, 2π)`.  First failure: rotation 0,
angular velocity 3 (magnitude ≤ 3), `dt = 5 ≥ 0` ends at `15 − 2π > 2π`.
Second failure: rotation π advanced by exactly π ends at exactly `2π`,
which the half-open interval `[0, 2π)` excludes. -/
theorem C6_counterexample :
    (|obC6a.angular_velocity| ≤ 3 ∧ (0 : ℚ) ≤ 5 ∧
      ¬ (0 ≤ (updateOneObstacle (fun _ => 0) 5 obC6a ⟨[], []⟩).1.rotation ∧
         (updateOneObstacle (fun _ => 0) 5 obC6a ⟨[], []⟩).1.rotation < twoPi)) ∧
    (|obC6b.angular_velocity| ≤ 3 ∧ (0 : ℚ) ≤ twoPi / 6 ∧
      ¬ (0 ≤ (updateOneObstacle (fun _ => 0) (twoPi / 6) obC6b ⟨[], []⟩).1.rotation ∧
         (updateOneObstacle (fun _ => 0) (twoPi / 6) obC6b ⟨[], []⟩).1.rotation < twoPi)) := by
  refine ⟨⟨?_, ?_, ?_⟩, ⟨?_, ?_, ?_⟩⟩
  · rw [show obC6a.angular_velocity = (3 : ℚ) from rfl,
      abs_of_nonneg (by norm_num : (0 : ℚ) ≤ 3)]
  · norm_num
  · rw [updateOneObstacle_rotation]
    norm_num [obC6a, twoPi, m_pi]
  · rw [show obC6b.angular_velocity = (3 : ℚ) from rfl,
      abs_of_nonneg (by norm_num : (0 : ℚ) ≤ 3)]
  · norm_num [twoPi, m_pi]
  · rw [updateOneObstacle_rotation]
    norm_num [obC6b, twoPi, m_pi]

/-- Claim C6 (amended): after the movement update the rotation lies in the
CLOSED interval `[0, 2π]` (the code's own comment says "Keep rotation in
[0, 2π] range", and the endpoint `2π` is reachable), provided the pre-update
rotation lies in `[0, 2π]` and the increment `angular_velocity * dt` has
magnitude at most `2π`. -/
theorem C6_rotation_range (sq : ℚ → ℚ) (dt : ℚ) (ob : Obstacle) (g : Rng)
    (h0 : 0 ≤ ob.rotation) (h1 : ob.rotation ≤ twoPi)
    (h2 : -twoPi ≤ ob.angular_velocity * dt)
    (h3 : ob.angular_velocity * dt ≤ twoPi) :
    0 ≤ (updateOneObstacle sq dt ob g).1.rotation ∧
      (updateOneObstacle sq dt ob g).1.rotation ≤ twoPi := by
  have hpi : 0 < twoPi := by norm_num [twoPi, m_pi]
  rw [updateOneObstacle_rotation]
  split_ifs with ha hb
  · constructor <;> linarith
  · constructor <;> linarith
  · constructor <;> linarith

/-- Witness for C6 at rotation 1, angular velocity 1, `dt = 1`. -/
theorem C6_witness :
    (0 ≤ obC6w.rotation ∧ obC6w.rotation ≤ twoPi ∧
      -twoPi ≤ obC6w.angular_velocity * 1 ∧ obC6w.angular_velocity * 1 ≤ twoPi) ∧
    (0 ≤ (updateOneObstacle (fun _ => 0) 1 obC6w ⟨[], []⟩).1.rotation ∧
      (updateOneObstacle (fun _ => 0) 1 obC6w ⟨[], []⟩).1.rotation ≤ twoPi) :=
  ⟨⟨by norm_num [obC6w], by norm_num [obC6w, twoPi, m_pi],
    by norm_num [obC6w, twoPi, m_pi], by norm_num [obC6w, twoPi, m_pi]⟩,
   C6_rotation_range (fun _ => 0) 1 obC6w ⟨[], []⟩
     (by norm_num [obC6w]) (by norm_num [obC6w, twoPi, m_pi])
     (by norm_num [obC6w, twoPi, m_pi]) (by norm_num [obC6w, twoPi, m_pi])⟩

/-! Claim C7: the particle wall bounce. -/
/-- Claim C7: a particle at `position.x = radius − ε` (any `ε > 0`) with
`velocity.x = −10` leaves a single wall-bounce pass with `velocity.x = 4`
(restitution 0.4, sign inverted; exact in the rational model) and
`position.x` exactly equal to `radius`. -/
theorem C7_wall_bounce (W radius ε : ℚ) (hε : 0 < ε) :
    bounceAxis W radius (radius - ε) (-10) = (radius, 4) := by
  rw [bounceAxis, if_pos (Or.inl (by linarith))]
  rw [Prod.mk.injEq]
  constructor
  · exact max_eq_left (le_trans (min_le_left _ _) (by linarith))
  · norm_num

/-- Witness for C7 in a 100-unit window with radius 2 and `ε = 1`. -/
theorem C7_witness :
    (0 : ℚ) < 1 ∧ bounceAxis 100 2 (2 - 1) (-10) = (2, 4) :=
  ⟨by norm_num, C7_wall_bounce 100 2 1 (by norm_num)⟩

/-! Claim C8: the resting-overlap check. -/
/-- Claim C8: whenever the query point lies inside the rectangle expanded by
the particle radius — tested in the obstacle's rotation-compensated local
frame — the resting-overlap check reports a collision whose penetration depth
is the smaller per-axis penetration (half-extent minus |local coordinate|),
whose separating axis is the axis of that smaller penetration (ties go to the
y-axis), whose normal is `±1` along that axis with sign matching the local
coordinate's sign (`−1` at zero), rotated back to world space, and whose
collision point is the query point itself. -/
theorem C8_point_collision (c s : ℚ) (point : Vec2) (ob : Obstacle) (pr : ℚ)
    (hx : |(rotateVector (point.sub ob.pos) c (-s)).x| ≤ ob.size.x / 2 + pr)
    (hy : |(rotateVector (point.sub ob.pos) c (-s)).y| ≤ ob.size.y / 2 + pr) :
    (checkPointRectangleCollision c s point ob pr).has_collision = true ∧
    (checkPointRectangleCollision c s point ob pr).penetration_depth =
      min (ob.size.x / 2 + pr - |(rotateVector (point.sub ob.pos) c (-s)).x|)
          (ob.size.y / 2 + pr - |(rotateVector (point.sub ob.pos) c (-s)).y|) ∧
    (checkPointRectangleCollision c s point ob pr).collision_normal =
      rotateVector
        (if ob.size.x / 2 + pr - |(rotateVector (point.sub ob.pos) c (-s)).x| <
            ob.size.y / 2 + pr - |(rotateVector (point.sub ob.pos) c (-s)).y| then
          ⟨if (rotateVector (point.sub ob.pos) c (-s)).x > 0 then 1 else -1, 0⟩
        else ⟨0, if (rotateVector (point.sub ob.pos) c (-s)).y > 0 then 1 else -1⟩)
        c s ∧
    (checkPointRectangleCollision c s point ob pr).collision_point = point := by
  simp only [checkPointRectangleCollision]
  rw [if_pos ⟨hx, hy⟩]
  refine ⟨rfl, ?_, rfl, rfl⟩
  dsimp only
  split_ifs with h
  · exact (min_eq_left (le_of_lt h)).symm
  · exact (min_eq_right (not_lt.mp h)).symm

/-- Witness for C8, which is also the claim's particular instance: a particle
of radius 0 at the obstacle's local coordinate `(half_width − 1, 0)` (here
`(2, 0)` on a 6×4, axis-aligned obstacle, so `half_height = 2 > 1`) is
reported with `has_collision = true`, penetration 1 and local-frame normal
`(+1, 0)`. -/
theorem C8_witness :
    (|(rotateVector ((⟨302, 300⟩ : Vec2).sub obC8.pos) 1 (-0)).x| ≤
        obC8.size.x / 2 + 0 ∧
     |(rotateVector ((⟨302, 300⟩ : Vec2).sub obC8.pos) 1 (-0)).y| ≤
        obC8.size.y / 2 + 0) ∧
    ((checkPointRectangleCollision 1 0 ⟨302, 300⟩ obC8 0).has_collision = true ∧
     (checkPointRectangleCollision 1 0 ⟨302, 300⟩ obC8 0).penetration_depth = 1 ∧
     (checkPointRectangleCollision 1 0 ⟨302, 300⟩ obC8 0).collision_normal = ⟨1, 0⟩) := by
  have hx : |(rotateVector ((⟨302, 300⟩ : Vec2).sub obC8.pos) 1 (-0)).x| ≤
      obC8.size.x / 2 + 0 := by
    norm_num [rotateVector, Vec2.sub, obC8, abs_le]
  have hy : |(rotateVector ((⟨302, 300⟩ : Vec2).sub obC8.pos) 1 (-0)).y| ≤
      obC8.size.y / 2 + 0 := by
    norm_num [rotateVector, Vec2.sub, obC8, abs_le]
  have h := C8_point_collision 1 0 ⟨302, 300⟩ obC8 0 hx hy
  refine ⟨⟨hx, hy⟩, h.1, ?_, ?_⟩
  · rw [h.2.1]
    norm_num [rotateVector, Vec2.sub, obC8]
  · rw [h.2.2.1]
    norm_num [rotateVector, Vec2.sub, obC8]

/-! Claim C9: the sweep phase. -/
/-- The sweep check declares a collision exactly when the start point is
outside the radius-expanded rectangle and the end point inside, both in the
obstacle's local frame. -/
lemma checkLine_iff (c s : ℚ) (p0 p1 : Vec2) (ob : Obstacle) (pr : ℚ) :
    (checkLineRectangleCollision c s p0 p1 ob pr).has_collision = true ↔
      (¬ (|(rotateVector (p0.sub ob.pos) c (-s)).x| ≤ ob.size.x / 2 + pr ∧
          |(rotateVector (p0.sub ob.pos) c (-s)).y| ≤ ob.size.y / 2 + pr) ∧
       (|(rotateVector (p1.sub ob.pos) c (-s)).x| ≤ ob.size.x / 2 + pr ∧
        |(rotateVector (p1.sub ob.pos) c (-s)).y| ≤ ob.size.y / 2 + pr)) := by
  by_cases h :
      (¬ (|(rotateVector (p0.sub ob.pos) c (-s)).x| ≤ ob.size.x / 2 + pr ∧
          |(rotateVector (p0.sub ob.pos) c (-s)).y| ≤ ob.size.y / 2 + pr) ∧
       (|(rotateVector (p1.sub ob.pos) c (-s)).x| ≤ ob.size.x / 2 + pr ∧
        |(rotateVector (p1.sub ob.pos) c (-s)).y| ≤ ob.size.y / 2 + pr))
  · simp only [checkLineRectangleCollision]
    rw [if_pos h]
    simpa using h
  · simp only [checkLineRectangleCollision]
    rw [if_neg h]
    simpa using h

/-- When the resting check reports no collision, the query point is not
inside the expanded rectangle. -/
lemma checkPoint_not_inside (c s : ℚ) (p : Vec2) (ob : Obstacle) (pr : ℚ)
    (h : (checkPointRectangleCollision c s p ob pr).has_collision = false) :
    ¬ (|(rotateVector (p.sub ob.pos) c (-s)).x| ≤ ob.size.x / 2 + pr ∧
       |(rotateVector (p.sub ob.pos) c (-s)).y| ≤ ob.size.y / 2 + pr) := by
  intro hcont
  simp only [checkPointRectangleCollision] at h
  rw [if_pos hcont] at h
  simp at h

/-- On a sweep collision the collision point is the world-space midpoint of
the trajectory (for a genuine rotation, i.e. `cos² + sin² = 1`). -/
lemma checkLine_point_of_collision (c s : ℚ) (p0 p1 : Vec2) (ob : Obstacle)
    (pr : ℚ) (hcs : c ^ 2 + s ^ 2 = 1)
    (hcol : (checkLineRectangleCollision c s p0 p1 ob pr).has_collision = true) :
    (checkLineRectangleCollision c s p0 p1 ob pr).collision_point =
      (p0.add p1).smul (1 / 2) := by
  have hcond := (checkLine_iff c s p0 p1 ob pr).mp hcol
  simp only [checkLineRectangleCollision]
  rw [if_pos hcond]
  simp only [Vec2.add, Vec2.sub, Vec2.smul, rotateVector]
  rw [Vec2.mk.injEq]
  constructor
  · linear_combination ((p0.x + p1.x - 2 * ob.pos.x) / 2) * hcs
  · linear_combination ((p0.y + p1.y - 2 * ob.pos.y) / 2) * hcs

/-- Claim C9: (i) the sweep check declares a collision exactly when the
pre-tick position is outside the radius-expanded rectangle and the post-tick
position inside, both tested in the obstacle's local frame; (ii) on a sweep
collision the collision point is the trajectory midpoint and the sweep
response clamps the particle to that point offset by its radius against the
normal, with velocity reflected and damped by 0.8; (iii) under the claim's
precondition — the resting-overlap test found no collision — the post-tick
inside test (which is syntactically the resting test) fails, so the sweep
phase never fires and the per-obstacle pass leaves the particle unchanged. -/
theorem C9_sweep_phase (c s : ℚ) (origPos pos vel : Vec2) (pr : ℚ)
    (ob : Obstacle) (hcs : c ^ 2 + s ^ 2 = 1) :
    ((checkLineRectangleCollision c s origPos pos ob pr).has_collision = true ↔
      (¬ (|(rotateVector (origPos.sub ob.pos) c (-s)).x| ≤ ob.size.x / 2 + pr ∧
          |(rotateVector (origPos.sub ob.pos) c (-s)).y| ≤ ob.size.y / 2 + pr) ∧
       (|(rotateVector (pos.sub ob.pos) c (-s)).x| ≤ ob.size.x / 2 + pr ∧
        |(rotateVector (pos.sub ob.pos) c (-s)).y| ≤ ob.size.y / 2 + pr))) ∧
    ((checkLineRectangleCollision c s origPos pos ob pr).has_collision = true →
      (checkLineRectangleCollision c s origPos pos ob pr).collision_point =
        (origPos.add pos).smul (1 / 2) ∧
      sweepResponse (checkLineRectangleCollision c s origPos pos ob pr) vel pr =
        (((origPos.add pos).smul (1 / 2)).sub
          ((checkLineRectangleCollision c s origPos pos ob pr).collision_normal.smul
            pr),
         (reflectVelocity vel
           (checkLineRectangleCollision c s origPos pos ob pr).collision_normal).smul
           0.8,
         true)) ∧
    ((checkPointRectangleCollision c s pos ob pr).has_collision = false →
      (checkLineRectangleCollision c s origPos pos ob pr).has_collision = false ∧
      collideOne c s origPos pr (pos, vel, false) ob = (pos, vel, false)) := by
  refine ⟨checkLine_iff c s origPos pos ob pr, ?_, ?_⟩
  · intro hcol
    have hpoint := checkLine_point_of_collision c s origPos pos ob pr hcs hcol
    refine ⟨hpoint, ?_⟩
    rw [sweepResponse, hpoint]
  · intro hpc
    have hnotin := checkPoint_not_inside c s pos ob pr hpc
    have htc : (checkLineRectangleCollision c s origPos pos ob pr).has_collision =
        false := by
      simp only [checkLineRectangleCollision]
      rw [if_neg (fun hcond => hnotin hcond.2)]
    refine ⟨htc, ?_⟩
    simp only [collideOne]
    rw [hpc, htc]
    simp

/-- Witness for C9: axis-aligned obstacle, particle far outside (so the
resting check fails), with rotation `(cos, sin) = (1, 0)`. -/
theorem C9_witness :
    ((1 : ℚ) ^ 2 + (0 : ℚ) ^ 2 = 1) ∧
    (((checkLineRectangleCollision 1 0 ⟨10, 0⟩ ⟨20, 0⟩ obC9 0).has_collision = true ↔
      (¬ (|(rotateVector ((⟨10, 0⟩ : Vec2).sub obC9.pos) 1 (-0)).x| ≤
            obC9.size.x / 2 + 0 ∧
          |(rotateVector ((⟨10, 0⟩ : Vec2).sub obC9.pos) 1 (-0)).y| ≤
            obC9.size.y / 2 + 0) ∧
       (|(rotateVector ((⟨20, 0⟩ : Vec2).sub obC9.pos) 1 (-0)).x| ≤
            obC9.size.x / 2 + 0 ∧
        |(rotateVector ((⟨20, 0⟩ : Vec2).sub obC9.pos) 1 (-0)).y| ≤
            obC9.size.y / 2 + 0))) ∧
    ((checkLineRectangleCollision 1 0 ⟨10, 0⟩ ⟨20, 0⟩ obC9 0).has_collision = true →
      (checkLineRectangleCollision 1 0 ⟨10, 0⟩ ⟨20, 0⟩ obC9 0).collision_point =
        ((⟨10, 0⟩ : Vec2).add ⟨20, 0⟩).smul (1 / 2) ∧
      sweepResponse (checkLineRectangleCollision 1 0 ⟨10, 0⟩ ⟨20, 0⟩ obC9 0)
          (⟨-1, 0⟩ : Vec2) 0 =
        ((((⟨10, 0⟩ : Vec2).add ⟨20, 0⟩).smul (1 / 2)).sub
          ((checkLineRectangleCollision 1 0 ⟨10, 0⟩ ⟨20, 0⟩ obC9 0).collision_normal.smul
            0),
         (reflectVelocity ⟨-1, 0⟩
           (checkLineRectangleCollision 1 0 ⟨10, 0⟩ ⟨20, 0⟩ obC9 0).collision_normal).smul
           0.8,
         true)) ∧
    ((checkPointRectangleCollision 1 0 ⟨20, 0⟩ obC9 0).has_collision = false →
      (checkLineRectangleCollision 1 0 ⟨10, 0⟩ ⟨20, 0⟩ obC9 0).has_collision = false ∧
      collideOne 1 0 ⟨10, 0⟩ 0 (⟨20, 0⟩, ⟨-1, 0⟩, false) obC9 =
        (⟨20, 0⟩, ⟨-1, 0⟩, false))) :=
  ⟨by norm_num, C9_sweep_phase 1 0 ⟨10, 0⟩ ⟨20, 0⟩ ⟨-1, 0⟩ 0 obC9 (by norm_num)⟩

/-! Claim C10: the color invariant. -/
/-- One integrator pass preserves the color invariant: the drift branch
clamps every channel to `[0, 200]` and never touches alpha, and the other
branch leaves the color unchanged. -/
lemma particleStep_colorInv (W H dt : ℚ) (p : Particle) (g : Rng)
    (h : colorInv p.color) : colorInv (particleStep W H dt p g).1.color := by
  simp only [particleStep]
  split_ifs with hc
  · simp only [colorInv] at h ⊢
    obtain ⟨h1, h2, h3, h4, h5, h6, h7⟩ := h
    refine ⟨?_, ?_, ?_, ?_, ?_, ?_, ?_⟩ <;> dsimp only <;> omega
  · exact h

/-- A pointwise property preserved by the element update is preserved by the
stream-threading map. -/
lemma mapRng_inv {α : Type} (Q : α → Prop) (f : α → Rng → α × Rng)
    (hf : ∀ x g, Q x → Q (f x g).1) :
    ∀ (xs : List α) (g : Rng), (∀ x ∈ xs, Q x) →
      ∀ y ∈ (mapRng f xs g).1, Q y := by
  intro xs
  induction xs with
  | nil => intro g _ y hy; simp [mapRng] at hy
  | cons x t ih =>
    intro g h y hy
    simp only [mapRng] at hy
    rcases List.mem_cons.mp hy with h1 | h2
    · rw [h1]; exact hf x g (h x (List.mem_cons_self _ _))
    · exact ih _ (fun z hz => h z (List.mem_cons_of_mem _ hz)) y h2

/-- Claim C10: every color channel lies in `[0, 200]` and alpha equals 220 at
particle creation (given in-range draws from `uniform_int_distribution(0, 200)`),
and this invariant is preserved by every `BrownianSimulation::update` and by
`resetParticles` (the drift is clamped to `[0, 200]` and never touches
alpha; reset does not touch color at all). -/
theorem C10_color_invariant :
    (∀ (x y r : ℚ) (d1 d2 d3 : ℤ),
      0 ≤ d1 → d1 ≤ 200 → 0 ≤ d2 → d2 ≤ 200 → 0 ≤ d3 → d3 ≤ 200 →
      colorInv (Particle.create x y r d1 d2 d3).color) ∧
    (∀ (dt : ℚ) (s : SimState), (∀ p ∈ s.particles, colorInv p.color) →
      ∀ p ∈ (BrownianSimulation.update dt s).particles, colorInv p.color) ∧
    (∀ s : SimState, (∀ p ∈ s.particles, colorInv p.color) →
      ∀ p ∈ (BrownianSimulation.resetParticles s).particles, colorInv p.color) := by
  refine ⟨?_, ?_, ?_⟩
  · intro x y r d1 d2 d3 ha hb hc hd he hf
    exact ⟨ha, hb, hc, hd, he, hf, rfl⟩
  · intro dt s h p hp
    exact mapRng_inv (fun q => colorInv q.color) _
      (fun q g hq => particleStep_colorInv _ _ dt q g hq) s.particles s.rng h p hp
  · intro s h p hp
    exact mapRng_inv (fun q => colorInv q.color) resetOneParticle
      (fun q g hq => by exact hq) s.particles s.rng h p hp

/-- Witness for C10 at a concrete particle and one-particle state. -/
theorem C10_witness :
    ((0 : ℤ) ≤ 10 ∧ (10 : ℤ) ≤ 200 ∧ (0 : ℤ) ≤ 20 ∧ (20 : ℤ) ≤ 200 ∧
      (0 : ℤ) ≤ 30 ∧ (30 : ℤ) ≤ 200 ∧ (∀ p ∈ simC10.particles, colorInv p.color)) ∧
    (colorInv (Particle.create 5 6 2 10 20 30).color ∧
     (∀ p ∈ (BrownianSimulation.update 1 simC10).particles, colorInv p.color) ∧
     (∀ p ∈ (BrownianSimulation.resetParticles simC10).particles, colorInv p.color)) :=
  ⟨⟨by decide, by decide, by decide, by decide, by decide, by decide, by decide⟩,
   C10_color_invariant.1 5 6 2 10 20 30 (by decide) (by decide) (by decide)
     (by decide) (by decide) (by decide),
   C10_color_invariant.2.1 1 simC10 (by decide),
   C10_color_invariant.2.2 simC10 (by decide)⟩

end BrownianMotion
